import Mathlib

/-!
A verification development for the MonoMux terminal multiplexer sources.

The definitions below are shallow embeddings of the C++ code:

* `monomux/system/BufferedChannel.cpp` — the buffered duplex byte channel
  (`BufferedChannel.read`, `BufferedChannel.write`, `BufferedChannel.load`,
  `BufferedChannel.flushWrites`);
* `monomux/unix/system/UnixPipe.cpp` — the low-level POSIX read/write loops
  (`unixRead`, `unixWrite`) and `Pipe::readImpl` / `Pipe::writeImpl`;
* `src/main.cpp` and `src/server/Main.cpp` — command-line option processing;
* `src/client/Main.cpp` — the blocking `connect` retry loop;
* the size-prefixed ("PascalString") message framing layer.

Bytes are modelled as natural numbers, byte strings as `List Nat`, and the
underlying operating-system resource (the raw file descriptor) as a script
of responses, one per syscall or per `readImpl`/`writeImpl` invocation.
C++ exceptions are modelled as error results; since the C++ object outlives
a throw, every operation returns its final state alongside the result.
-/

namespace Monomux

/-! ## BufferedChannel (src/core/system/BufferedChannel.cpp) -/

/-- `static constexpr std::size_t BufferSizeMax = 1ULL << 31; // 2 GiB` -/
def BufferSizeMax : Nat := 2 ^ 31

/-- Errors a `BufferedChannel` operation can signal.  `ioError` is the
`std::errc::io_error` thrown by `throwIfFailed`; `overflow` is
`BufferedChannel::OverflowError`. -/
inductive ChanErr where
  | ioError
  | overflow
deriving DecidableEq, Repr

/-- The state of a `BufferedChannel` together with a script describing the
behaviour of the underlying raw handle.  The rings (`RingBuffer<char>`) are
FIFO queues of bytes, modelled as lists with the front at the head.
`rImpl i` is the outcome of the `i`-th call to the virtual `readImpl`
(data returned, and the `Success` flag: `false` means the implementation
set the channel failed and cleared `Continue`); `wImpl i` likewise gives
the byte count accepted by the `i`-th `writeImpl` call and its `Success`
flag.  Responses are clamped to the request size, as POSIX guarantees.
`optRead`/`optWrite` are `optimalReadSize()`/`optimalWriteSize()`, positive
per-syscall ceilings (e.g. `BUFSIZ`).  Only bidirectional channels are
modelled; the `throwIfNoRead`/`throwIfNoWrite` guards for absent rings are
out of scope for the claims. -/
structure BufferedChannel where
  readRing : List Nat
  writeRing : List Nat
  failed : Bool
  rImpl : Nat → (List Nat × Bool)
  rCalls : Nat
  wImpl : Nat → (Nat × Bool)
  wCalls : Nat
  optRead : Nat
  optWrite : Nat
  optReadPos : 0 < optRead
  optWritePos : 0 < optWrite

namespace BufferedChannel

/-- Outcome of the `flushWrites` drain loop. -/
structure FlushOut where
  sent : Nat
  ring : List Nat
  fail : Bool
  calls : Nat
deriving DecidableEq, Repr

/-- The `while (ContinueWriting && hasBufferedWrite())` loop of
`BufferedChannel::flushWrites` (BufferedChannel.cpp:353-371).  Each round
peeks a chunk of at most `opt` bytes from the ring front, sends it through
`writeImpl`, and drops from the ring exactly the bytes actually sent;
`ContinueWriting` stays set only if the whole peeked chunk was accepted and
the implementation reported success. -/
def flushLoop (opt : Nat) (hopt : 0 < opt) (wImpl : Nat → (Nat × Bool))
    (i : Nat) (ring : List Nat) (sentAcc : Nat) : FlushOut :=
  match ring with
  | [] => ⟨sentAcc, [], false, i⟩
  | b :: rest =>
    let chunk := (b :: rest).take opt
    let r := wImpl i
    let sent := min r.1 chunk.length
    if h : r.2 = true ∧ sent = chunk.length then
      flushLoop opt hopt wImpl (i + 1) ((b :: rest).drop sent) (sentAcc + sent)
    else
      ⟨sentAcc + sent, (b :: rest).drop sent, !r.2, i + 1⟩
termination_by ring.length
decreasing_by
  have h2 := h.2
  simp only [sent, chunk, r, List.length_take, List.length_cons] at h2
  simp only [List.length_drop, List.length_cons, sent, chunk, List.length_take]
  omega

/-- `BufferedChannel::flushWrites` (BufferedChannel.cpp:341-376). -/
def flushWrites (ch : BufferedChannel) : Except ChanErr Nat × BufferedChannel :=
  if ch.failed then (.error .ioError, ch)
  else if ch.writeRing.isEmpty then (.ok 0, ch)
  else
    let o := flushLoop ch.optWrite ch.optWritePos ch.wImpl ch.wCalls ch.writeRing 0
    (.ok o.sent,
      { ch with writeRing := o.ring, failed := ch.failed || o.fail, wCalls := o.calls })

/-- Outcome of the chunked send loop of `BufferedChannel::write`. -/
structure WriteLoopOut where
  sent : Nat
  rest : List Nat
  fail : Bool
  calls : Nat
deriving DecidableEq, Repr

/-- The `while (ContinueWriting && !Data.empty())` loop of
`BufferedChannel::write` (BufferedChannel.cpp:246-265).  Each round sends a
chunk of at most `opt` bytes of the remaining data through `writeImpl`,
advances past exactly the bytes accepted, and keeps going only if the whole
chunk was accepted and the implementation reported success.  Returns the
total bytes sent, the unsent tail, whether the implementation marked the
channel failed, and the next `writeImpl` call index. -/
def writeLoop (opt : Nat) (hopt : 0 < opt) (wImpl : Nat → (Nat × Bool))
    (i : Nat) (data : List Nat) (sentAcc : Nat) : WriteLoopOut :=
  match data with
  | [] => ⟨sentAcc, [], false, i⟩
  | b :: rest =>
    let toSend := min opt (b :: rest).length
    let r := wImpl i
    let sent := min r.1 toSend
    if h : r.2 = true ∧ sent = toSend then
      writeLoop opt hopt wImpl (i + 1) ((b :: rest).drop sent) (sentAcc + sent)
    else
      ⟨sentAcc + sent, (b :: rest).drop sent, !r.2, i + 1⟩
termination_by data.length
decreasing_by
  have h2 := h.2
  simp only [sent, toSend, r, List.length_cons] at h2
  simp only [List.length_drop, List.length_cons, sent, toSend, r]
  omega

/-- `BufferedChannel::write` (BufferedChannel.cpp:206-287).  If the write
ring holds data, it is flushed first; a partial flush forces the whole new
`Data` to be buffered (FIFO), returning 0.  Otherwise `Data` is sent in
optimal-sized chunks and any unsent tail is buffered.  Growing the ring
past `BufferSizeMax` raises `OverflowError`, which (modelled from the
spec: `OverflowError`'s constructor lives in the missing header
`monomux/system/BufferedChannel.hpp`, and the spec says "raise
`OverflowError` and mark the channel *failed*") also sets `failed`. -/
def write (ch : BufferedChannel) (data : List Nat) :
    Except ChanErr Nat × BufferedChannel :=
  if ch.failed then (.error .ioError, ch)
  else
    let inWriteBuffer := ch.writeRing.length
    let f := flushWrites ch
    let bufferSent := match f.1 with | .ok n => n | .error _ => 0
    let ch₁ := f.2
    if bufferSent < inWriteBuffer then
      -- Partial flush: buffering Data entirely preserves the send order.
      let ring := ch₁.writeRing ++ data
      if BufferSizeMax < ring.length then
        (.error .overflow, { ch₁ with writeRing := ring, failed := true })
      else
        (.ok 0, { ch₁ with writeRing := ring })
    else if data.isEmpty then (.ok 0, ch₁)
    else
      let o := writeLoop ch₁.optWrite ch₁.optWritePos ch₁.wImpl ch₁.wCalls data 0
      let ch₂ := { ch₁ with wCalls := o.calls, failed := ch₁.failed || o.fail }
      let ring := ch₂.writeRing ++ o.rest
      if BufferSizeMax < ring.length then
        (.error .overflow, { ch₂ with writeRing := ring, failed := true })
      else
        (.ok o.sent, { ch₂ with writeRing := ring })

/-- Outcome of the chunked receive loop of `BufferedChannel::read`.
`got` records every byte delivered by `readImpl` (after clamping), in
order; it is a history variable used to state retention properties. -/
structure ReadLoopOut where
  ret : List Nat
  ring : List Nat
  fail : Bool
  calls : Nat
  got : List Nat
deriving DecidableEq, Repr

/-- The `while (ContinueReading && Bytes > 0)` loop of
`BufferedChannel::read` (BufferedChannel.cpp:153-192).  Each round requests
`opt` bytes from `readImpl`; an empty chunk breaks out, a short chunk clears
`ContinueReading`, at most `bytes` further bytes are served into the return
value, and any excess is put back at the end of the read ring. -/
def readLoop (opt : Nat) (rImpl : Nat → (List Nat × Bool))
    (i : Nat) (bytes : Nat) (acc ring got : List Nat) (fail : Bool) :
    ReadLoopOut :=
  if bytes = 0 then ⟨acc, ring, fail, i, got⟩
  else
    let r := rImpl i
    let chunk := r.1.take opt
    if chunk.isEmpty then ⟨acc, ring, fail || !r.2, i + 1, got⟩
    else
      let readSize := chunk.length
      let bytesFromRead := min bytes readSize
      let acc' := acc ++ chunk.take bytesFromRead
      let got' := got ++ chunk
      if bytes < readSize then
        ⟨acc', ring ++ chunk.drop bytesFromRead, fail || !r.2, i + 1, got'⟩
      else if h : r.2 = true ∧ opt ≤ readSize then
        readLoop opt rImpl (i + 1) (bytes - bytesFromRead) acc' ring got'
          (fail || !r.2)
      else ⟨acc', ring, fail || !r.2, i + 1, got'⟩
termination_by bytes
decreasing_by
  rename_i _hb _hc hlt
  have hne : chunk.length ≠ 0 := by
    simpa [List.isEmpty_iff, List.length_eq_zero] using _hc
  have ha : chunk.length = (List.take opt (rImpl i).1).length := rfl
  omega

/-- `BufferedChannel::read` (BufferedChannel.cpp:127-204), instrumented
with the `got` history of every byte the underlying source delivered.
First serves from the read ring, then runs the chunked read loop;
excess bytes are retained in the read ring.  An overflowing read ring
raises `OverflowError` and (modelled from the spec, as for `write`) marks
the channel failed. -/
def readCore (ch : BufferedChannel) (bytes : Nat) :
    Except ChanErr (List Nat) × BufferedChannel × List Nat :=
  if ch.failed then (.error .ioError, ch, [])
  else
    let fromBuffer := min bytes ch.readRing.length
    let ret₀ := ch.readRing.take fromBuffer
    let ring₀ := ch.readRing.drop fromBuffer
    let bytes₁ := bytes - fromBuffer
    if bytes₁ = 0 then (.ok ret₀, { ch with readRing := ring₀ }, [])
    else
      let o := readLoop ch.optRead ch.rImpl ch.rCalls bytes₁ ret₀ ring₀ [] false
      let ch' := { ch with readRing := o.ring, rCalls := o.calls,
                           failed := ch.failed || o.fail }
      if BufferSizeMax < o.ring.length then
        (.error .overflow, { ch' with failed := true }, o.got)
      else
        (.ok o.ret, ch', o.got)

/-- `BufferedChannel::read`, forgetting the instrumentation. -/
def read (ch : BufferedChannel) (bytes : Nat) :
    Except ChanErr (List Nat) × BufferedChannel :=
  ((readCore ch bytes).1, (readCore ch bytes).2.1)

/-- Outcome of the `load` loop. -/
structure LoadLoopOut where
  ring : List Nat
  readBytes : Nat
  fail : Bool
  calls : Nat
deriving DecidableEq, Repr

/-- The `while (ContinueReading && Bytes > 0)` loop of
`BufferedChannel::load` (BufferedChannel.cpp:298-327): like the read loop
but every delivered byte is appended to the read ring and only the count
is returned. -/
def loadLoop (opt : Nat) (rImpl : Nat → (List Nat × Bool))
    (i : Nat) (bytes : Nat) (ring : List Nat) (readBytes : Nat)
    (fail : Bool) : LoadLoopOut :=
  if bytes = 0 then ⟨ring, readBytes, fail, i⟩
  else
    let r := rImpl i
    let chunk := r.1.take opt
    if chunk.isEmpty then ⟨ring, readBytes, fail || !r.2, i + 1⟩
    else
      let readSize := chunk.length
      if h : r.2 = true ∧ opt ≤ readSize then
        loadLoop opt rImpl (i + 1) (bytes - min readSize bytes)
          (ring ++ chunk) (readBytes + readSize) (fail || !r.2)
      else ⟨ring ++ chunk, readBytes + readSize, fail || !r.2, i + 1⟩
termination_by bytes
decreasing_by
  rename_i _hb _hc
  have hne : chunk.length ≠ 0 := by
    simpa [List.isEmpty_iff, List.length_eq_zero] using _hc
  have ha : chunk.length = (List.take opt (rImpl i).1).length := rfl
  omega

/-- `BufferedChannel::load` (BufferedChannel.cpp:289-339). -/
def load (ch : BufferedChannel) (bytes : Nat) :
    Except ChanErr Nat × BufferedChannel :=
  if ch.failed then (.error .ioError, ch)
  else
    let o := loadLoop ch.optRead ch.rImpl ch.rCalls bytes ch.readRing 0 false
    let ch' := { ch with readRing := o.ring, rCalls := o.calls,
                         failed := ch.failed || o.fail }
    if BufferSizeMax < o.ring.length then
      (.error .overflow, { ch' with failed := true })
    else
      (.ok o.readBytes, ch')

/-! ### Lemmas about the drain loop -/

/-- The drain loop only ever removes, from the front of the ring, exactly
the bytes the underlying write accepted: the accumulated sent count grows
by at most the ring length and the final ring is the corresponding drop. -/
theorem flushLoop_spec (opt : Nat) (hopt : 0 < opt) (w : Nat → (Nat × Bool)) :
    ∀ (i : Nat) (ring : List Nat) (a : Nat),
      a ≤ (flushLoop opt hopt w i ring a).sent ∧
      (flushLoop opt hopt w i ring a).sent - a ≤ ring.length ∧
      (flushLoop opt hopt w i ring a).ring =
        ring.drop ((flushLoop opt hopt w i ring a).sent - a) := by
  intro i ring a
  induction i, ring, a using flushLoop.induct opt hopt w with
  | case1 i a =>
    simp [flushLoop]
  | case2 i a b rest chunk r sent h ih =>
    simp only [sent, r, chunk] at h ih
    simp only [flushLoop]
    rw [dif_pos h]
    obtain ⟨ih1, ih2, ih3⟩ := ih
    have hsent : min (w i).1 ((b :: rest).take opt).length ≤ rest.length + 1 := by
      simp only [List.length_take, List.length_cons]
      omega
    simp only [List.length_drop, List.length_cons] at ih2
    refine ⟨by omega, ?_, ?_⟩
    · simp only [List.length_cons]
      omega
    · rw [ih3, List.drop_drop]
      congr 1
      omega
  | case3 i a b rest chunk r sent h =>
    simp only [sent, r, chunk] at h
    simp only [flushLoop]
    rw [dif_neg h]
    dsimp only
    have hsent : min (w i).1 ((b :: rest).take opt).length ≤ rest.length + 1 := by
      simp only [List.length_take, List.length_cons]
      omega
    refine ⟨by omega, ?_, ?_⟩
    · simp only [List.length_cons]
      omega
    · congr 1
      omega

/-- A successful `flushWrites` removed exactly `sent` bytes from the front
of the write ring, and sent no more than was buffered. -/
theorem flushWrites_drop (ch : BufferedChannel) (sent : Nat)
    (ch' : BufferedChannel) (h : flushWrites ch = (.ok sent, ch')) :
    ch'.writeRing = ch.writeRing.drop sent ∧ sent ≤ ch.writeRing.length := by
  unfold flushWrites at h
  by_cases hf : ch.failed
  · simp [hf] at h
  · simp only [hf, Bool.false_eq_true, if_false] at h
    by_cases he : ch.writeRing.isEmpty
    · rw [if_pos he] at h
      obtain ⟨h1, h2⟩ := Prod.mk.injEq .. ▸ h
      obtain rfl : 0 = sent := by simpa using h1
      subst h2
      simp [List.isEmpty_iff.mp he]
    · rw [if_neg he] at h
      obtain ⟨h1, h2⟩ := Prod.mk.injEq .. ▸ h
      obtain rfl : (flushLoop ch.optWrite ch.optWritePos ch.wImpl ch.wCalls
          ch.writeRing 0).sent = sent := by simpa using h1
      have hs := flushLoop_spec ch.optWrite ch.optWritePos ch.wImpl
        ch.wCalls ch.writeRing 0
      subst h2
      refine ⟨?_, by omega⟩
      simpa using hs.2.2

/-- If the channel has not failed, `flushWrites` cannot raise. -/
theorem flushWrites_ok (ch : BufferedChannel) (hf : ch.failed = false) :
    ∃ n ch', flushWrites ch = (.ok n, ch') := by
  unfold flushWrites
  rw [hf]
  by_cases he : ch.writeRing.isEmpty <;> simp [he]

/-! ### C5: flushWrites drains exactly what was sent, in order -/

/-- C5.  `BufferedChannel::flushWrites` drains the write ring in
optimal-size chunks until the ring is empty or the handle signals
backpressure, and after each chunk removes from the front of the ring
exactly the number of bytes the underlying write actually sent: the final
ring is `writeRing.drop sent`, so bytes not accepted by the handle remain
buffered in their original order. -/
theorem flushWrites_removes_exactly_sent (ch : BufferedChannel) (sent : Nat)
    (ch' : BufferedChannel) (h : flushWrites ch = (.ok sent, ch')) :
    ch'.writeRing = ch.writeRing.drop sent ∧ sent ≤ ch.writeRing.length :=
  flushWrites_drop ch sent ch' h

/-- Concrete channel for the C5 witness: two buffered bytes, a handle that
accepts a single byte per call. -/
def chForFlush : BufferedChannel where
  readRing := []
  writeRing := [7, 9]
  failed := false
  rImpl := fun _ => ([], true)
  rCalls := 0
  wImpl := fun _ => (1, true)
  wCalls := 0
  optRead := 2
  optWrite := 2
  optReadPos := by omega
  optWritePos := by omega

theorem flushWrites_removes_exactly_sent_witness :
    (flushWrites chForFlush).2.writeRing = chForFlush.writeRing.drop 1 ∧
    1 ≤ chForFlush.writeRing.length :=
  flushWrites_removes_exactly_sent chForFlush 1 (flushWrites chForFlush).2
    (by
      have h1 : (flushWrites chForFlush).1 = .ok 1 := by
        simp [flushWrites, flushLoop, chForFlush]
      exact Prod.ext h1 rfl)

/-! ### C1: a partial flush forces full buffering of the new data -/

/-- C1.  When `BufferedChannel::write` is called while the write ring is
non-empty, it first flushes the ring; if that flush is partial (`n` bytes
sent, fewer than were buffered) then — provided the grown ring stays within
`BufferSizeMax` — the entire new `data` is appended behind the still-backed
bytes and `write` returns 0, so no later byte bypasses an earlier buffered
byte. -/
theorem write_buffers_all_after_partial_flush (ch : BufferedChannel)
    (data : List Nat) (n : Nat)
    (hf : ch.failed = false)
    (hfl : (flushWrites ch).1 = .ok n)
    (hpart : n < ch.writeRing.length)
    (hroom : (flushWrites ch).2.writeRing.length + data.length ≤ BufferSizeMax) :
    (write ch data).1 = .ok 0 ∧
    (write ch data).2.writeRing = (flushWrites ch).2.writeRing ++ data := by
  unfold write
  rw [hf]
  simp only [Bool.false_eq_true, if_false]
  rw [hfl]
  simp only [hpart, if_pos]
  rw [if_neg (by simp only [List.length_append]; omega)]
  exact ⟨rfl, rfl⟩

/-- Concrete channel for the C1 witness: one buffered byte, a handle that
accepts nothing (total backpressure). -/
def chForWrite : BufferedChannel where
  readRing := []
  writeRing := [1]
  failed := false
  rImpl := fun _ => ([], true)
  rCalls := 0
  wImpl := fun _ => (0, true)
  wCalls := 0
  optRead := 1
  optWrite := 1
  optReadPos := by omega
  optWritePos := by omega

theorem write_buffers_all_after_partial_flush_witness :
    (write chForWrite [2]).1 = .ok 0 ∧
    (write chForWrite [2]).2.writeRing = (flushWrites chForWrite).2.writeRing ++ [2] :=
  write_buffers_all_after_partial_flush chForWrite [2] 0 rfl
    (by simp [flushWrites, flushLoop, chForWrite])
    (by simp [chForWrite])
    (by simp [flushWrites, flushLoop, chForWrite, BufferSizeMax])

/-! ### C4: read serves at most n bytes and retains the excess -/

/-- Invariant of the chunked read loop: the loop appends `δ` (everything
`readImpl` delivered) to the `got` history, appends some suffix `ρ` of the
last chunk to the ring, and splits `δ` between the returned bytes and `ρ`
in order; the returned bytes grow by at most `bytes`. -/
theorem readLoop_spec (opt : Nat) (rI : Nat → (List Nat × Bool)) :
    ∀ (i bytes : Nat) (acc ring got : List Nat) (fail : Bool),
      ∃ δ ρ,
        (readLoop opt rI i bytes acc ring got fail).got = got ++ δ ∧
        (readLoop opt rI i bytes acc ring got fail).ring = ring ++ ρ ∧
        (readLoop opt rI i bytes acc ring got fail).ret ++ ρ = acc ++ δ ∧
        (readLoop opt rI i bytes acc ring got fail).ret.length ≤ acc.length + bytes := by
  intro i bytes acc ring got fail
  induction i, bytes, acc, ring, got, fail using readLoop.induct opt rI with
  | case1 i acc ring got fail =>
    refine ⟨[], [], ?_⟩
    rw [readLoop]
    simp
  | case2 i bytes acc ring got fail h0 r chunk hc =>
    refine ⟨[], [], ?_⟩
    simp only [r, chunk] at hc
    rw [readLoop]
    dsimp only
    rw [if_neg h0, if_pos hc]
    simp
  | case3 i bytes acc ring got fail h0 r chunk hc readSize hlt =>
    simp only [r, chunk] at hc hlt
    simp only [readSize, r, chunk] at hlt
    refine ⟨(rI i).1.take opt, ((rI i).1.take opt).drop (min bytes ((rI i).1.take opt).length), ?_⟩
    rw [readLoop]
    dsimp only
    rw [if_neg h0, if_neg hc, if_pos hlt]
    refine ⟨rfl, rfl, ?_, ?_⟩
    · simp [List.append_assoc, List.take_append_drop]
    · simp only [List.length_append, List.length_take]
      omega
  | case4 i bytes acc ring got fail h0 r chunk hc readSize bytesFromRead acc' got' hge hcont ih =>
    simp only [r, chunk] at hc
    simp only [readSize, r, chunk] at hge hcont
    simp only [acc', got', bytesFromRead, readSize, r, chunk] at ih
    obtain ⟨δ, ρ, ih1, ih2, ih3, ih4⟩ := ih
    refine ⟨(rI i).1.take opt ++ δ, ρ, ?_⟩
    rw [readLoop]
    dsimp only
    rw [if_neg h0, if_neg hc, if_neg (by omega : ¬bytes < ((rI i).1.take opt).length),
        dif_pos hcont]
    have hb : min bytes ((rI i).1.take opt).length = ((rI i).1.take opt).length := by omega
    rw [hb] at ih1 ih2 ih3 ih4 ⊢
    refine ⟨?_, ?_, ?_, ?_⟩
    · rw [ih1, List.append_assoc]
    · exact ih2
    · rw [ih3, List.take_length, List.append_assoc]
    · rw [List.take_length] at ih4 ⊢
      simp only [List.length_append] at ih4
      have hne : ((rI i).1.take opt).length ≠ 0 := by
        simpa [List.isEmpty_iff, List.length_eq_zero] using hc
      omega
  | case5 i bytes acc ring got fail h0 r chunk hc readSize hge hstop =>
    simp only [r, chunk] at hc
    simp only [readSize, r, chunk] at hge hstop
    refine ⟨(rI i).1.take opt, [], ?_⟩
    rw [readLoop]
    dsimp only
    rw [if_neg h0, if_neg hc, if_neg (by omega : ¬bytes < ((rI i).1.take opt).length),
        dif_neg hstop]
    have hb : min bytes ((rI i).1.take opt).length = ((rI i).1.take opt).length := by omega
    rw [hb]
    refine ⟨rfl, by simp, ?_, ?_⟩
    · rw [List.take_length, List.append_nil]
    · simp only [List.length_append, List.take_length]
      omega
/-- C4.  A successful `BufferedChannel::read` of `n` bytes returns at most
`n` bytes, and every byte obtained from the underlying source beyond the
`n` requested is retained at the end of the read ring rather than
discarded: returned bytes followed by the final read ring equal the
original read ring followed by everything the source delivered, so a
subsequent read observes the excess next, in order. -/
theorem read_at_most_and_retains (ch : BufferedChannel) (n : Nat) (d : List Nat)
    (hf : ch.failed = false) (h : (readCore ch n).1 = .ok d) :
    d.length ≤ n ∧
    d ++ (readCore ch n).2.1.readRing = ch.readRing ++ (readCore ch n).2.2 := by
  unfold readCore at h ⊢
  rw [hf] at h ⊢
  simp only [Bool.false_eq_true, if_false] at h ⊢
  by_cases hz : n - min n ch.readRing.length = 0
  · rw [if_pos hz] at h ⊢
    simp only [Except.ok.injEq] at h
    subst h
    refine ⟨by simp only [List.length_take]; omega, ?_⟩
    simp [List.take_append_drop]
  · rw [if_neg hz] at h ⊢
    have hfb : min n ch.readRing.length = ch.readRing.length := by omega
    rw [hfb, List.take_length, List.drop_length] at h ⊢
    obtain ⟨δ, ρ, h1, h2, h3, h4⟩ := readLoop_spec ch.optRead ch.rImpl ch.rCalls
      (n - ch.readRing.length) ch.readRing [] [] false
    simp only [List.nil_append] at h1 h2
    by_cases ho : BufferSizeMax <
        (readLoop ch.optRead ch.rImpl ch.rCalls (n - ch.readRing.length)
          ch.readRing [] [] false).ring.length
    · rw [if_pos ho] at h
      simp at h
    · rw [if_neg ho] at h ⊢
      simp only [Except.ok.injEq] at h
      subst h
      refine ⟨by omega, ?_⟩
      rw [h1, h2, h3]

/-- Concrete channel for the C4 witness: three buffered bytes and a source
that delivers two more than requested. -/
def chForRead : BufferedChannel where
  readRing := [1, 2, 3]
  writeRing := []
  failed := false
  rImpl := fun _ => ([4, 5], true)
  rCalls := 0
  wImpl := fun _ => (0, true)
  wCalls := 0
  optRead := 2
  optWrite := 1
  optReadPos := by omega
  optWritePos := by omega

theorem read_at_most_and_retains_witness :
    (4 : Nat) ≤ 4 ∧
    [1, 2, 3, 4] ++ (readCore chForRead 4).2.1.readRing =
      chForRead.readRing ++ (readCore chForRead 4).2.2 := by
  have h := read_at_most_and_retains chForRead 4 [1, 2, 3, 4] rfl
    (by simp [readCore, readLoop, chForRead, BufferSizeMax])
  exact ⟨le_refl 4, h.2⟩

/-! ### C2: overflow guard and refusal after failure -/

/-- C2.  (1) A channel that has failed refuses every `read`, `write`,
`load` and `flushWrites` with an I/O error, transferring nothing and
leaving the state unchanged (`throwIfFailed`,
BufferedChannel.cpp:106-111).  (2) On a healthy channel, `write` raises
`OverflowError` exactly when the write ring it leaves behind has grown
past `BufferSizeMax` (2 GiB) — so the error is raised exactly once, for
the growth that crossed the limit — and (3) any operation that raises
`OverflowError` leaves the channel failed, so (by (1)) every subsequent
operation raises an I/O error. -/
theorem overflow_guard_and_failed_refusal :
    (∀ ch : BufferedChannel, ch.failed = true →
      (∀ n, read ch n = (.error .ioError, ch)) ∧
      (∀ d, write ch d = (.error .ioError, ch)) ∧
      (∀ n, load ch n = (.error .ioError, ch)) ∧
      flushWrites ch = (.error .ioError, ch)) ∧
    (∀ (ch : BufferedChannel) (d : List Nat), ch.failed = false →
      ((write ch d).1 = .error .overflow ↔
        BufferSizeMax < (write ch d).2.writeRing.length)) ∧
    (∀ (ch : BufferedChannel) (d : List Nat),
      (write ch d).1 = .error .overflow → (write ch d).2.failed = true) ∧
    (∀ (ch : BufferedChannel) (n : Nat),
      (load ch n).1 = .error .overflow → (load ch n).2.failed = true) ∧
    (∀ (ch : BufferedChannel) (n : Nat),
      (read ch n).1 = .error .overflow → (read ch n).2.failed = true) := by
  refine ⟨?_, ?_, ?_, ?_, ?_⟩
  · intro ch hf
    refine ⟨fun n => ?_, fun d => ?_, fun n => ?_, ?_⟩
    · simp [read, readCore, hf]
    · simp [write, hf]
    · simp [load, hf]
    · simp [flushWrites, hf]
  · intro ch d hf
    obtain ⟨n, ch₁, hfl⟩ := flushWrites_ok ch hf
    unfold write
    rw [hf]
    simp only [Bool.false_eq_true, if_false, hfl]
    by_cases hp : n < ch.writeRing.length
    · rw [if_pos hp]
      by_cases ho : BufferSizeMax < (ch₁.writeRing ++ d).length
      · rw [if_pos ho]
        simpa using ho
      · rw [if_neg ho]
        simpa using ho
    · rw [if_neg hp]
      by_cases he : d.isEmpty
      · rw [if_pos he]
        have hd := flushWrites_drop ch n ch₁ hfl
        have hr : ch₁.writeRing = [] := by
          rw [hd.1]
          exact List.drop_eq_nil_of_le (by omega)
        simp [hr, BufferSizeMax]
      · rw [if_neg he]
        by_cases ho : BufferSizeMax <
            (ch₁.writeRing ++
              (writeLoop ch₁.optWrite ch₁.optWritePos ch₁.wImpl ch₁.wCalls d 0).rest).length
        · rw [if_pos ho]
          simpa using ho
        · rw [if_neg ho]
          simpa using ho
  · intro ch d h
    unfold write at h ⊢
    by_cases hf : ch.failed
    · simp [hf] at h
    · simp only [hf, Bool.false_eq_true, if_false] at h ⊢
      split at h <;> rename_i hp
      · split at h <;> rename_i ho
        · rw [if_pos hp, if_pos ho]
        · simp at h
      · split at h <;> rename_i he
        · simp at h
        · rw [if_neg hp, if_neg he]
          split at h <;> rename_i ho
          · rw [if_pos ho]
          · simp at h
  · intro ch n h
    unfold load at h ⊢
    by_cases hf : ch.failed
    · simp [hf] at h
    · simp only [hf, Bool.false_eq_true, if_false] at h ⊢
      split at h <;> rename_i ho
      · rw [if_pos ho]
      · simp at h
  · intro ch n h
    unfold read readCore at h ⊢
    by_cases hf : ch.failed
    · simp [hf] at h
    · simp only [hf, Bool.false_eq_true, if_false] at h ⊢
      split at h <;> rename_i hz
      · simp at h
      · rw [if_neg hz]
        split at h <;> rename_i ho
        · rw [if_pos ho]
        · simp at h

/-- Concrete failed channel for the C2 witness. -/
def chFailed : BufferedChannel where
  readRing := []
  writeRing := []
  failed := true
  rImpl := fun _ => ([], true)
  rCalls := 0
  wImpl := fun _ => (0, true)
  wCalls := 0
  optRead := 1
  optWrite := 1
  optReadPos := by omega
  optWritePos := by omega

theorem overflow_guard_and_failed_refusal_witness :
    read chFailed 3 = (.error .ioError, chFailed) ∧
    write chFailed [1] = (.error .ioError, chFailed) :=
  ⟨(overflow_guard_and_failed_refusal.1 chFailed rfl).1 3,
   (overflow_guard_and_failed_refusal.1 chFailed rfl).2.1 [1]⟩

end BufferedChannel

/-! ## Unix pipes (src/unix/system/UnixPipe.cpp)

The static helpers `unix::read` (UnixPipe.cpp:200-255) and `unix::write`
(UnixPipe.cpp:263-314) loop over the raw `::read`/`::write` syscalls.  A
syscall outcome is one element of a script: `eintr` (interrupted),
`wouldBlock` (`EWOULDBLOCK`/`EAGAIN`), `hardErr` (any other errno, which
the C++ code turns into a thrown `std::system_error`), or a data/count
result (empty data resp. zero count meaning the peer disconnected).
An exhausted script is modelled as the loop stopping with what it has,
like a would-block. -/

/-- One `::read` syscall outcome. -/
inductive ReadSysRes where
  | eintr
  | wouldBlock
  | hardErr
  | bytes (data : List Nat)
deriving DecidableEq, Repr

/-- One `::write` syscall outcome. -/
inductive WriteSysRes where
  | eintr
  | wouldBlock
  | hardErr
  | sent (n : Nat)
deriving DecidableEq, Repr

/-- The `unix::read` loop (UnixPipe.cpp:200-255).  `bufsiz` is the
compile-time `BUFSIZ` chunk ceiling; `rem` the bytes still wanted; `acc`
the bytes gathered so far.  Returns the gathered data and the `Success`
flag, or an error for the thrown `std::system_error`.  `EINTR` retries the
loop; would-block breaks out returning what is ready; a zero-byte read
(disconnect) clears `ContinueReading` and breaks, and the tail of the
function reports failure exactly when the disconnect yielded no data at
all.  Data responses are clamped to the per-call request
`min bufsiz rem`, as POSIX guarantees. -/
def unixReadAux (bufsiz : Nat) :
    List ReadSysRes → Nat → List Nat → Except Unit (List Nat × Bool)
  | _, 0, acc => .ok (acc, true)
  | [], _, acc => .ok (acc, true)
  | .eintr :: rest, rem, acc => unixReadAux bufsiz rest rem acc
  | .wouldBlock :: _, _, acc => .ok (acc, true)
  | .hardErr :: _, _, _ => .error ()
  | .bytes d :: rest, rem, acc =>
    if d.isEmpty then
      -- `::read` returned 0: disconnected.  `*Success = false` only when
      -- nothing at all was gathered (`!ContinueReading && Return.empty()`).
      if acc.isEmpty then .ok (acc, false) else .ok (acc, true)
    else
      let dd := d.take (min bufsiz rem)
      unixReadAux bufsiz rest (rem - dd.length) (acc ++ dd)

/-- `unix::read(fd, bytes, success)`. -/
def unixRead (bufsiz : Nat) (s : List ReadSysRes) (bytes : Nat) :
    Except Unit (List Nat × Bool) :=
  unixReadAux bufsiz s bytes []

/-- The `unix::write` loop (UnixPipe.cpp:263-314).  `buf` is the data left
to send and `acc` counts the bytes sent.  `EINTR` retries; would-block
returns the partial count with `*Success = true` ("do not mark the entire
FD as faulty"); a hard error throws.  On a zero-byte write (disconnect)
the loop breaks — and the unconditional `*Success = true` after the loop
overwrites the failure report, so a returning `unix::write` always reports
success.  Counts are clamped to the per-call request. -/
def unixWriteAux (bufsiz : Nat) :
    List WriteSysRes → List Nat → Nat → Except Unit (Nat × Bool)
  | _, [], acc => .ok (acc, true)
  | [], _, acc => .ok (acc, true)
  | .eintr :: rest, buf, acc => unixWriteAux bufsiz rest buf acc
  | .wouldBlock :: _, _, acc => .ok (acc, true)
  | .hardErr :: _, _, _ => .error ()
  | .sent n :: rest, buf, acc =>
    let m := min n (min bufsiz buf.length)
    if m = 0 then .ok (acc, true)
    else unixWriteAux bufsiz rest (buf.drop m) (acc + m)

/-- `unix::write(fd, buffer, success)`. -/
def unixWrite (bufsiz : Nat) (s : List WriteSysRes) (buf : List Nat) :
    Except Unit (Nat × Bool) :=
  unixWriteAux bufsiz s buf 0

/-- `Pipe::Mode`. -/
inductive PipeMode where
  | read
  | write
deriving DecidableEq, Repr

/-- Errors a `Pipe::readImpl`/`writeImpl` call can signal: the guard
throws for an already-failed pipe or a wrong-direction pipe, and a hard
syscall error propagates as `std::system_error`. -/
inductive PipeErr where
  | ioError
  | notPermitted
  | sysError
deriving DecidableEq, Repr

/-- The observable state of a `unix::Pipe`. -/
structure PipeState where
  failed : Bool
  openedAs : PipeMode
deriving DecidableEq, Repr

/-- `Pipe::readImpl` (UnixPipe.cpp:316-335).  Returns the data and the
`Success` flag (the `Continue` out-parameter is cleared exactly when
`Success` is false), together with the pipe state afterwards.  Note that
when `unix::read` throws, the `setFailed()` call is skipped — the
exception propagates first. -/
def Pipe.readImpl (p : PipeState) (bufsiz : Nat) (s : List ReadSysRes)
    (bytes : Nat) : Except PipeErr (List Nat × Bool) × PipeState :=
  if p.failed then (.error .ioError, p)
  else if p.openedAs ≠ PipeMode.read then (.error .notPermitted, p)
  else
    match unixRead bufsiz s bytes with
    | .error _ => (.error .sysError, p)
    | .ok (d, ok) => (.ok (d, ok), if ok then p else { p with failed := true })

/-- `Pipe::writeImpl` (UnixPipe.cpp:337-355), analogously. -/
def Pipe.writeImpl (p : PipeState) (bufsiz : Nat) (s : List WriteSysRes)
    (buf : List Nat) : Except PipeErr (Nat × Bool) × PipeState :=
  if p.failed then (.error .ioError, p)
  else if p.openedAs ≠ PipeMode.write then (.error .notPermitted, p)
  else
    match unixWrite bufsiz s buf with
    | .error _ => (.error .sysError, p)
    | .ok (n, ok) => (.ok (n, ok), if ok then p else { p with failed := true })

/-- `unix::read` reports failure only when it gathered nothing: a `Success
= false` return carries empty data (and started with an empty
accumulator). -/
theorem unixReadAux_false (bufsiz : Nat) :
    ∀ (s : List ReadSysRes) (rem : Nat) (acc d : List Nat),
      unixReadAux bufsiz s rem acc = .ok (d, false) → d = [] ∧ acc = [] := by
  intro s
  induction s with
  | nil =>
    intro rem acc d h
    cases rem <;> simp [unixReadAux] at h
  | cons head rest ih =>
    intro rem acc d h
    cases rem with
    | zero => simp [unixReadAux] at h
    | succ m =>
      cases head with
      | eintr => exact ih _ _ _ (by simpa [unixReadAux] using h)
      | wouldBlock => simp [unixReadAux] at h
      | hardErr => simp [unixReadAux] at h
      | bytes dta =>
        rw [show unixReadAux bufsiz (ReadSysRes.bytes dta :: rest) (m + 1) acc =
              (if dta.isEmpty then
                 (if acc.isEmpty then Except.ok (acc, false)
                  else Except.ok (acc, true))
               else
                 unixReadAux bufsiz rest
                   ((m + 1) - (dta.take (min bufsiz (m + 1))).length)
                   (acc ++ dta.take (min bufsiz (m + 1)))) from rfl] at h
        by_cases hd : dta.isEmpty
        · by_cases ha : acc.isEmpty
          · rw [if_pos hd, if_pos ha] at h
            simp only [Except.ok.injEq, Prod.mk.injEq] at h
            have : acc = [] := List.isEmpty_iff.mp ha
            exact ⟨h.1 ▸ this, this⟩
          · rw [if_pos hd, if_neg ha] at h
            simp at h
        · rw [if_neg hd] at h
          obtain ⟨h1, h2⟩ := ih _ _ _ h
          simp only [List.append_eq_nil] at h2
          exact ⟨h1, h2.1⟩

/-- `unix::write` always reports success when it returns at all: the
would-block path sets `*Success = true` explicitly and the assignment
after the loop overwrites even the disconnect report. -/
theorem unixWriteAux_true (bufsiz : Nat) :
    ∀ (s : List WriteSysRes) (buf : List Nat) (acc : Nat) (r : Nat × Bool),
      unixWriteAux bufsiz s buf acc = .ok r → r.2 = true := by
  intro s
  induction s with
  | nil =>
    intro buf acc r h
    cases buf <;> simp [unixWriteAux] at h <;> simp [← h]
  | cons head rest ih =>
    intro buf acc r h
    cases buf with
    | nil =>
      simp [unixWriteAux] at h
      simp [← h]
    | cons b bs =>
      cases head with
      | eintr => exact ih _ _ _ (by simpa [unixWriteAux] using h)
      | wouldBlock =>
        simp [unixWriteAux] at h
        simp [← h]
      | hardErr => simp [unixWriteAux] at h
      | sent n =>
        rw [show unixWriteAux bufsiz (WriteSysRes.sent n :: rest) (b :: bs) acc =
              (if min n (min bufsiz (b :: bs).length) = 0 then Except.ok (acc, true)
               else
                 unixWriteAux bufsiz rest
                   ((b :: bs).drop (min n (min bufsiz (b :: bs).length)))
                   (acc + min n (min bufsiz (b :: bs).length))) from rfl] at h
        split at h
        · simp only [Except.ok.injEq] at h
          simp [← h]
        · exact ih _ _ _ h

/-- With nothing left to request the read loop exits at once. -/
theorem unixReadAux_zero (bufsiz : Nat) (s : List ReadSysRes) (acc : List Nat) :
    unixReadAux bufsiz s 0 acc = .ok (acc, true) := by
  cases s with
  | nil => rfl
  | cons head rest => cases head <;> rfl

/-- With nothing left to send the write loop exits at once. -/
theorem unixWriteAux_nil (bufsiz : Nat) (s : List WriteSysRes) (acc : Nat) :
    unixWriteAux bufsiz s [] acc = .ok (acc, true) := by
  cases s with
  | nil => rfl
  | cons head rest => cases head <;> rfl

/-! ### C6: EINTR is transparent, EWOULDBLOCK ends the loop successfully -/

/-- C6.  In the low-level `unix::read` and `unix::write` loops, an `EINTR`
outcome is retried transparently — the loop state (remaining request,
gathered bytes) is unchanged — and an `EWOULDBLOCK`/`EAGAIN` outcome
terminates the loop returning exactly the bytes already transferred,
possibly zero, with the success flag set (no error raised). -/
theorem eintr_transparent_wouldblock_returns :
    (∀ (bufsiz : Nat) (s : List ReadSysRes) (rem : Nat) (acc : List Nat),
        unixReadAux bufsiz (.eintr :: s) rem acc = unixReadAux bufsiz s rem acc) ∧
    (∀ (bufsiz : Nat) (s : List WriteSysRes) (buf : List Nat) (acc : Nat),
        unixWriteAux bufsiz (.eintr :: s) buf acc = unixWriteAux bufsiz s buf acc) ∧
    (∀ (bufsiz : Nat) (s : List ReadSysRes) (rem : Nat) (acc : List Nat),
        unixReadAux bufsiz (.wouldBlock :: s) rem acc = .ok (acc, true)) ∧
    (∀ (bufsiz : Nat) (s : List WriteSysRes) (buf : List Nat) (acc : Nat),
        unixWriteAux bufsiz (.wouldBlock :: s) buf acc = .ok (acc, true)) := by
  refine ⟨?_, ?_, ?_, ?_⟩
  · intro bufsiz s rem acc
    cases rem with
    | zero => rw [unixReadAux_zero, unixReadAux_zero]
    | succ m => rfl
  · intro bufsiz s buf acc
    cases buf with
    | nil => rw [unixWriteAux_nil, unixWriteAux_nil]
    | cons b bs => rfl
  · intro bufsiz s rem acc
    cases rem <;> rfl
  · intro bufsiz s buf acc
    cases buf <;> rfl

/-! ### C10: when the failed flag is (not) set -/

/-- C10.  (a) A `Pipe::readImpl` that yields at least one byte never marks
the pipe failed, even when the peer disconnected after yielding that data;
(b) `Pipe::writeImpl` never changes the failed flag at all (a would-block
stop reports success for the partial prefix, and even a disconnect report
is overwritten by the final `*Success = true`); (c) on a healthy pipe the
failed flag is set only by a read disconnect that yielded no data at all
— a hard syscall error throws before `setFailed()` is reached; (d) a
returning `unix::write` always reports success. -/
theorem pipe_failed_only_on_empty_disconnect :
    (∀ (p : PipeState) (bufsiz : Nat) (s : List ReadSysRes) (n : Nat)
        (d : List Nat) (ok : Bool),
        p.failed = false →
        (Pipe.readImpl p bufsiz s n).1 = .ok (d, ok) → d ≠ [] →
        (Pipe.readImpl p bufsiz s n).2.failed = false) ∧
    (∀ (p : PipeState) (bufsiz : Nat) (s : List WriteSysRes) (buf : List Nat),
        (Pipe.writeImpl p bufsiz s buf).2.failed = p.failed) ∧
    (∀ (p : PipeState) (bufsiz : Nat) (s : List ReadSysRes) (n : Nat),
        p.failed = false →
        (Pipe.readImpl p bufsiz s n).2.failed = true →
        (Pipe.readImpl p bufsiz s n).1 = .ok ([], false)) ∧
    (∀ (bufsiz : Nat) (s : List WriteSysRes) (buf : List Nat) (r : Nat × Bool),
        unixWrite bufsiz s buf = .ok r → r.2 = true) := by
  refine ⟨?_, ?_, ?_, ?_⟩
  · intro p bufsiz s n d ok hf h hd
    unfold Pipe.readImpl at h ⊢
    rw [hf] at h ⊢
    simp only [Bool.false_eq_true, if_false] at h ⊢
    by_cases hm : p.openedAs ≠ PipeMode.read
    · rw [if_pos hm] at h
      simp at h
    · rw [if_neg hm] at h ⊢
      generalize hr : unixRead bufsiz s n = u at h ⊢
      match u, hr with
      | .error e, hr =>
        exact absurd
          (show (Except.error PipeErr.sysError : Except PipeErr (List Nat × Bool))
              = Except.ok (d, ok) from h) (by simp)
      | .ok (d', ok'), hr =>
        have h2 : (Except.ok (d', ok') : Except PipeErr (List Nat × Bool))
            = Except.ok (d, ok) := h
        simp only [Except.ok.injEq, Prod.mk.injEq] at h2
        obtain ⟨rfl, rfl⟩ := h2
        show (if ok' = true then p else { p with failed := true }).failed = false
        cases ok' with
        | true => simpa using hf
        | false =>
          obtain ⟨rfl, -⟩ := unixReadAux_false bufsiz s n [] d' hr
          exact absurd rfl hd
      
  · intro p bufsiz s buf
    unfold Pipe.writeImpl
    by_cases hf : p.failed
    · rw [if_pos hf]
    · rw [if_neg hf]
      by_cases hm : p.openedAs ≠ PipeMode.write
      · rw [if_pos hm]
      · rw [if_neg hm]
        generalize hr : unixWrite bufsiz s buf = u
        match u, hr with
        | .error e, hr => rfl
        | .ok (n, ok), hr =>
          have hok : ok = true := unixWriteAux_true bufsiz s buf 0 (n, ok) hr
          show (if ok = true then p else { p with failed := true }).failed = p.failed
          rw [hok]
          simp
  · intro p bufsiz s n hf h
    unfold Pipe.readImpl at h ⊢
    rw [hf] at h ⊢
    simp only [Bool.false_eq_true, if_false] at h ⊢
    by_cases hm : p.openedAs ≠ PipeMode.read
    · rw [if_pos hm] at h
      simp only at h
      exact absurd (hf ▸ h) (by simp)
    · rw [if_neg hm] at h ⊢
      generalize hr : unixRead bufsiz s n = u at h ⊢
      match u, hr with
      | .error e, hr =>
        have h2 : p.failed = true := h
        rw [hf] at h2
        simp at h2
      | .ok (d', ok'), hr =>
        have h2 : (if ok' = true then p else { p with failed := true }).failed = true := h
        cases ok' with
        | true =>
          rw [if_pos rfl] at h2
          rw [hf] at h2
          simp at h2
        | false =>
          obtain ⟨rfl, -⟩ := unixReadAux_false bufsiz s n [] d' hr
          rfl
  · intro bufsiz s buf r h
    exact unixWriteAux_true bufsiz s buf 0 r h

theorem pipe_failed_only_on_empty_disconnect_witness :
    (Pipe.readImpl ⟨false, .read⟩ 8 [.bytes [9], .bytes []] 1).2.failed = false :=
  pipe_failed_only_on_empty_disconnect.1 ⟨false, .read⟩ 8
    [.bytes [9], .bytes []] 1 [9] true rfl (by simp [Pipe.readImpl, unixRead, unixReadAux])
    (by simp)

/-! ## Message framing ("PascalString", include/core/monomux/message)

`sendMessage` (PascalString.hpp:41-45) writes `encodeWithSize(Msg)` to the
channel; `receiveMessage` (PascalString.hpp:89-94) reads a size-prefixed
payload with `readPascalString` and then `detail::unpack`s it, checking the
message kind (PascalString.hpp:60-68).  `encodeWithSize`, `Message::unpack`
and `readPascalString` are declared in `MessageBase.hpp` and implemented in
`MessageBase.cpp`, neither of which is under `src/`; they are modelled from
the spec here (each doc comment notes this). -/

/-- Little-endian byte encoding of `n` in `w` bytes. -/
def toLE : Nat → Nat → List Nat
  | 0, _ => []
  | w + 1, n => n % 256 :: toLE w (n / 256)

/-- Little-endian byte decoding. -/
def fromLE : List Nat → Nat
  | [] => 0
  | b :: bs => b % 256 + 256 * fromLE bs

/-- Modelled from the spec: the framing ceiling for control messages —
"If the length field exceeds an implementation ceiling (suggested 16 MiB
for control messages), the channel is marked failed."  The ceiling is
applied to the payload portion of the frame (the length field also covers
the 2-byte kind), which is the reading under which the spec's own
round-trip property "for all `|payload| < 16 MiB`" is coherent. -/
def MessageSizeMax : Nat := 16 * 1024 * 1024

/-- Modelled from the spec: `encodeWithSize(kind, payload)` emits
`len_le64 ‖ kind_le16 ‖ payload` where the 64-bit little-endian length
covers kind and payload (`MessageBase` is not under `src/`). -/
def encodeWithSize (kind : Nat) (payload : List Nat) : List Nat :=
  toLE 8 (2 + payload.length) ++ toLE 2 kind ++ payload

/-- Modelled from the spec: `readPascalString(channel)` reads 8 bytes of
length, then exactly `len` bytes, and returns them (the frame) together
with the rest of the stream; a short stream blocks (modelled as `none`)
and a length beyond the ceiling marks the channel failed (also `none`). -/
def readPascalString (stream : List Nat) : Option (List Nat × List Nat) :=
  if stream.length < 8 then none
  else
    let len := fromLE (stream.take 8)
    if 2 + MessageSizeMax < len then none
    else if stream.length < 8 + len then none
    else some ((stream.drop 8).take len, stream.drop (8 + len))

/-- Modelled from the spec: `Message::unpack` splits a frame into the
16-bit little-endian kind and the raw payload. -/
def Message.unpack (frame : List Nat) : Nat × List Nat :=
  (fromLE (frame.take 2), frame.drop 2)

/-- `receiveMessage<T>` (PascalString.hpp:89-94): read a size-prefixed
frame, unpack it, and keep the payload only if the kind matches the
expected one (`detail::unpack`, PascalString.hpp:60-68).  Returns the
payload and the unconsumed rest of the stream. -/
def receiveMessage (kind : Nat) (stream : List Nat) :
    Option (List Nat × List Nat) :=
  match readPascalString stream with
  | none => none
  | some (frame, rest) =>
    if (Message.unpack frame).1 = kind then some ((Message.unpack frame).2, rest)
    else none

theorem fromLE_toLE : ∀ (w n : Nat), fromLE (toLE w n) = n % 256 ^ w := by
  intro w
  induction w with
  | zero =>
    intro n
    simp [toLE, fromLE, Nat.mod_one]
  | succ w ih =>
    intro n
    rw [toLE, fromLE, ih, Nat.mod_mod_of_dvd n dvd_rfl, pow_succ']
    exact (Nat.mod_mul).symm

theorem toLE_length : ∀ (w n : Nat), (toLE w n).length = w := by
  intro w
  induction w with
  | zero => intro n; rfl
  | succ w ih => intro n; simp [toLE, ih]

/-! ### C3: framing round-trip -/

/-- C3.  For every message kind below 2^16 and payload smaller than
16 MiB, encoding the message with the size prefix (`sendMessage` writes
`encodeWithSize(kind, payload)`) and then reading and unpacking it from
the byte stream (`receiveMessage` = `readPascalString` + `detail::unpack`)
yields exactly the original kind (the kind comparison succeeds) and the
original payload, leaving the rest of the stream untouched. -/
theorem framing_roundtrip (kind : Nat) (payload rest : List Nat)
    (hk : kind < 2 ^ 16) (hp : payload.length < 16 * 1024 * 1024) :
    receiveMessage kind (encodeWithSize kind payload ++ rest) = some (payload, rest) := by
  have hlen8 : (toLE 8 (2 + payload.length)).length = 8 := toLE_length 8 _
  have hlen2 : (toLE 2 kind).length = 2 := toLE_length 2 _
  have hstream : encodeWithSize kind payload ++ rest =
      toLE 8 (2 + payload.length) ++ (toLE 2 kind ++ payload ++ rest) := by
    simp [encodeWithSize]
  have htake8 : (encodeWithSize kind payload ++ rest).take 8 =
      toLE 8 (2 + payload.length) := by
    rw [hstream]
    exact List.take_left' hlen8
  have hdrop8 : (encodeWithSize kind payload ++ rest).drop 8 =
      toLE 2 kind ++ payload ++ rest := by
    rw [hstream]
    exact List.drop_left' hlen8
  have hfrom8 : fromLE (toLE 8 (2 + payload.length)) = 2 + payload.length := by
    rw [fromLE_toLE]
    exact Nat.mod_eq_of_lt (by norm_num at hp ⊢; omega)
  have hslen : (encodeWithSize kind payload ++ rest).length =
      10 + payload.length + rest.length := by
    simp [encodeWithSize, hlen8, hlen2]
    omega
  have hframe : (toLE 2 kind ++ payload ++ rest).take (2 + payload.length) =
      toLE 2 kind ++ payload :=
    List.take_left' (by simp [hlen2])
  have hrest : (encodeWithSize kind payload ++ rest).drop (8 + (2 + payload.length)) =
      rest := by
    rw [hstream, show toLE 8 (2 + payload.length) ++ (toLE 2 kind ++ payload ++ rest) =
          (toLE 8 (2 + payload.length) ++ (toLE 2 kind ++ payload)) ++ rest by simp]
    exact List.drop_left' (by simp [hlen8, hlen2])
  have rps : readPascalString (encodeWithSize kind payload ++ rest) =
      some (toLE 2 kind ++ payload, rest) := by
    rw [readPascalString]
    rw [if_neg (by rw [hslen]; omega)]
    rw [htake8, hfrom8]
    rw [if_neg (by simp only [MessageSizeMax]; omega)]
    rw [if_neg (by rw [hslen]; omega)]
    rw [hdrop8, hframe, hrest]
  have hunpack1 : (Message.unpack (toLE 2 kind ++ payload)).1 = kind := by
    rw [Message.unpack]
    dsimp only
    rw [List.take_left' hlen2, fromLE_toLE]
    exact Nat.mod_eq_of_lt (by norm_num at hk ⊢; omega)
  have hunpack2 : (Message.unpack (toLE 2 kind ++ payload)).2 = payload := by
    rw [Message.unpack]
    dsimp only
    exact List.drop_left' hlen2
  rw [receiveMessage, rps]
  show (if (Message.unpack (toLE 2 kind ++ payload)).1 = kind then
          some ((Message.unpack (toLE 2 kind ++ payload)).2, rest) else none) =
        some (payload, rest)
  rw [if_pos hunpack1, hunpack2]

theorem framing_roundtrip_witness :
    receiveMessage 2 (encodeWithSize 2 [10, 20] ++ [99]) = some ([10, 20], [99]) :=
  framing_roundtrip 2 [10, 20] [99] (by decide) (by decide)

/-! ## The blocking client connect retry loop (src/client/Main.cpp:36-57) -/

/-- Observable outcome of `client::connect`: whether a client was
obtained, how many `Client::create` attempts were made, whether the
"Connection failed after enough retries." message was printed to
`std::cerr`, and how many one-second sleeps were performed. -/
structure ConnectOut where
  gotClient : Bool
  attempts : Nat
  errPrinted : Bool
  sleeps : Nat
deriving DecidableEq, Repr

/-- The `while (!C)` loop of `client::connect` (client/Main.cpp:43-54).
`create i` is the outcome of the `i`-th (0-based) `Client::create` call;
`counter` is `HandshakeCounter`.  Each iteration increments the counter,
attempts a creation, sleeps one second, and returns no client — printing
the failure message — once the counter reaches 5.  `fuel` is a recursion
bound only; from the entry state (`counter = 1`) the counter reaches 5
within four iterations, so fuel 4 is never exhausted. -/
def connectLoop (create : Nat → Bool) :
    Nat → Nat → Nat → Nat → ConnectOut
  | 0, idx, _, sleeps => ⟨false, idx, false, sleeps⟩
  | fuel + 1, idx, counter, sleeps =>
    let counter' := counter + 1
    let ok := create idx
    let sleeps' := sleeps + 1
    if counter' = 5 then ⟨false, idx + 1, true, sleeps'⟩
    else if ok then ⟨true, idx + 1, false, sleeps'⟩
    else connectLoop create fuel (idx + 1) counter' sleeps'

/-- `client::connect(Opts, Block)` (client/Main.cpp:36-57): one initial
`Client::create`; if not blocking, return whatever that gave; otherwise
retry in the loop above. -/
def connect (block : Bool) (create : Nat → Bool) : ConnectOut :=
  let ok0 := create 0
  if !block then ⟨ok0, 1, false, 0⟩
  else if ok0 then ⟨ok0, 1, false, 0⟩
  else connectLoop create 4 1 1 0

/-! ### C7: bounded blocking retry with user-visible failure -/

/-- C7.  When `connect` is called with `Block` set and every
`Client::create` attempt fails, the retry loop terminates after exactly 5
creation attempts (the initial one plus four loop rounds, separated by
four one-second sleeps), prints the failure message to standard error,
and returns no client. -/
theorem connect_blocking_all_fail_bounded (create : Nat → Bool)
    (h : ∀ i, create i = false) :
    connect true create = ⟨false, 5, true, 4⟩ := by
  simp only [connect, connectLoop, h]
  norm_num

theorem connect_blocking_all_fail_bounded_witness :
    connect true (fun _ => false) = ⟨false, 5, true, 4⟩ :=
  connect_blocking_all_fail_bounded (fun _ => false) (fun _ => rfl)

/-! ## Command-line option processing (src/main.cpp:104-319)

The `getopt_long` loop is modelled as a fold over the stream of recognised
option events (the tokenisation itself is libc's).  Positional arguments
are not modelled: they only add further errors and never clear one.  The
verbosity clamping (main.cpp:258-285) only adjusts the log severity and is
omitted. -/

/-- One recognised option event, one per `case` of the switch
(main.cpp:127-242).  `oBad` is the `'?'` case (unknown option). -/
inductive CliOpt where
  | oServer
  | oStat
  | oBad
  | oHelp
  | oVersion
  | oVerbose
  | oQuiet
  | oSocket (path : String)
  | oName (name : String)
  | oEnv (kv : String)
  | oUnset (k : String)
  | oList
  | oInteractive
  | oDetach
  | oDetachAll
  | oNoDaemon
  | oKeepalive
deriving DecidableEq, Repr

/-- `server::Options` with its constructor defaults
(server/Main.cpp:37-39): `ServerMode(false), Background(true),
ExitOnLastSessionTerminate(true)`. -/
structure ServerOptions where
  serverMode : Bool := false
  background : Bool := true
  exitOnLastSessionTerminate : Bool := true
  socketPath : Option String := none
deriving DecidableEq, Repr

/-- Modelled from the spec: the fields of `client::Options` that the
option switch touches; `client/Main.hpp` is not under `src/`, and its
flags are taken as value-initialised to false/empty. -/
structure ClientOptions where
  clientMode : Bool := false
  socketPath : Option String := none
  sessionName : Option String := none
  onlyListSessions : Bool := false
  interactiveSessionMenu : Bool := false
  detachRequestLatest : Bool := false
  detachRequestAll : Bool := false
  statisticsRequest : Bool := false
deriving DecidableEq, Repr

/-- The `MainOptions` flags of main.cpp:71-92. -/
structure MainOptions where
  showHelp : Bool := false
  showVersion : Bool := false
  showElaborateBuildInformation : Bool := false
  anyVerboseFlag : Bool := false
  anyQuietFlag : Bool := false
  verbosityQuietnessDifferential : Int := 0
deriving DecidableEq, Repr

/-- State threaded through the option loop.  `hadErrors` is the flag the
`ArgError` lambda sets (main.cpp:116-120); `errPrinted` records that
something was written to `std::cerr` through it. -/
structure ParseState where
  server : ServerOptions := {}
  client : ClientOptions := {}
  mainO : MainOptions := {}
  hadErrors : Bool := false
  errPrinted : Bool := false
deriving DecidableEq, Repr

/-- One `case` of the option switch (main.cpp:127-242). -/
def processOpt (st : ParseState) (o : CliOpt) : ParseState :=
  match o with
  | .oServer =>
    { st with server := { st.server with serverMode := true },
              client := { st.client with clientMode := false } }
  | .oStat => { st with client := { st.client with statisticsRequest := true } }
  | .oBad => { st with hadErrors := true }
  | .oHelp => { st with mainO := { st.mainO with showHelp := true } }
  | .oVerbose =>
    if st.mainO.anyQuietFlag then { st with hadErrors := true, errPrinted := true }
    else
      { st with mainO := { st.mainO with
          anyVerboseFlag := true,
          verbosityQuietnessDifferential :=
            st.mainO.verbosityQuietnessDifferential + 1 } }
  | .oQuiet =>
    if st.mainO.anyVerboseFlag then { st with hadErrors := true, errPrinted := true }
    else
      { st with mainO := { st.mainO with
          anyQuietFlag := true,
          verbosityQuietnessDifferential :=
            st.mainO.verbosityQuietnessDifferential - 1 } }
  | .oVersion =>
    if ¬st.mainO.showVersion then
      { st with mainO := { st.mainO with showVersion := true } }
    else if ¬st.mainO.showElaborateBuildInformation then
      { st with mainO := { st.mainO with showElaborateBuildInformation := true } }
    else { st with hadErrors := true, errPrinted := true }
  | .oSocket p => { st with client := { st.client with socketPath := some p } }
  | .oName n => { st with client := { st.client with sessionName := some n } }
  | .oEnv kv =>
    -- The VAR=VAL payload goes into the spawn environment (not tracked);
    -- a payload without '=' is an invocation error.
    if kv.contains '=' then st else { st with hadErrors := true, errPrinted := true }
  | .oUnset _ => st
  | .oList => { st with client := { st.client with onlyListSessions := true } }
  | .oInteractive =>
    { st with client := { st.client with interactiveSessionMenu := true } }
  | .oDetach => { st with client := { st.client with detachRequestLatest := true } }
  | .oDetachAll => { st with client := { st.client with detachRequestAll := true } }
  | .oNoDaemon =>
    { st with server := { st.server with
        background := false, exitOnLastSessionTerminate := false } }
  | .oKeepalive =>
    { st with server := { st.server with exitOnLastSessionTerminate := false } }

/-- The whole `getopt_long` loop, from the default-constructed option
records. -/
def parseArgs (opts : List CliOpt) : ParseState :=
  opts.foldl processOpt {}

/-- Modelled from the spec: `FrontendExitCode.hpp` is not under `src/`;
the spec fixes the exit codes `0 Success`, `1 InvocationError`,
`2 SystemError`. -/
inductive FrontendExitCode where
  | success
  | invocationError
  | systemError
deriving DecidableEq, Repr

/-- Modelled from the spec: the numeric value `static_cast<int>` yields. -/
def FrontendExitCode.toNat : FrontendExitCode → Nat
  | .success => 0
  | .invocationError => 1
  | .systemError => 2

/-- What `main` does after the option loop: return an exit code before
any client or server action, or proceed to dispatch with the parsed
records. -/
inductive MainOutcome where
  | exited (code : FrontendExitCode)
  | dispatch (server : ServerOptions) (client : ClientOptions)
deriving DecidableEq, Repr

/-- The remainder of the parse block of `main` (main.cpp:245-319): the
help and version short-circuits, the `-d`/`-D` mutual-exclusion check
(main.cpp:287-289), the client-mode default, and the `HadErrors` exit
(main.cpp:315-316).  The second component reports whether an error
message went to `std::cerr` via `ArgError`. -/
def mainParse (opts : List CliOpt) : MainOutcome × Bool :=
  let st := parseArgs opts
  if st.mainO.showHelp then (.exited .success, st.errPrinted)
  else if st.mainO.showVersion then (.exited .success, st.errPrinted)
  else
    let st₁ :=
      if st.client.detachRequestLatest ∧ st.client.detachRequestAll then
        { st with hadErrors := true, errPrinted := true }
      else st
    let st₂ :=
      if ¬st₁.server.serverMode then
        { st₁ with client := { st₁.client with clientMode := true } }
      else st₁
    if st₂.hadErrors then (.exited .invocationError, st₂.errPrinted)
    else (.dispatch st₂.server st₂.client, st₂.errPrinted)


/-! ### C8: -N implies -k -/

theorem foldl_keeps_server_flags :
    ∀ (opts : List CliOpt) (st : ParseState),
      st.server.background = false →
      st.server.exitOnLastSessionTerminate = false →
      (opts.foldl processOpt st).server.background = false ∧
      (opts.foldl processOpt st).server.exitOnLastSessionTerminate = false := by
  intro opts
  induction opts with
  | nil =>
    intro st hb he
    exact ⟨hb, he⟩
  | cons o rest ih =>
    intro st hb he
    rw [List.foldl_cons]
    apply ih
    · cases o <;> simp only [processOpt] <;> (try split_ifs) <;> simp [hb]
    · cases o <;> simp only [processOpt] <;> (try split_ifs) <;> simp [he]

theorem parseArgs_no_daemon_aux :
    ∀ (opts : List CliOpt) (st : ParseState), CliOpt.oNoDaemon ∈ opts →
      (opts.foldl processOpt st).server.background = false ∧
      (opts.foldl processOpt st).server.exitOnLastSessionTerminate = false := by
  intro opts
  induction opts with
  | nil =>
    intro st h
    simp at h
  | cons o rest ih =>
    intro st h
    rw [List.foldl_cons]
    rcases List.mem_cons.mp h with rfl | hmem
    · exact foldl_keeps_server_flags rest _ (by simp [processOpt]) (by simp [processOpt])
    · exact ih _ hmem

theorem foldl_showHelp :
    ∀ (opts : List CliOpt) (st : ParseState), CliOpt.oHelp ∉ opts →
      (opts.foldl processOpt st).mainO.showHelp = st.mainO.showHelp := by
  intro opts
  induction opts with
  | nil =>
    intro st h
    rfl
  | cons o rest ih =>
    intro st h
    rw [List.foldl_cons, ih _ (fun hc => h (List.mem_cons_of_mem _ hc))]
    have hne : o ≠ CliOpt.oHelp := fun hee => h (hee ▸ List.mem_cons_self _ _)
    cases o <;> simp only [processOpt] <;> (try split_ifs) <;> simp_all

theorem foldl_showVersion :
    ∀ (opts : List CliOpt) (st : ParseState), CliOpt.oVersion ∉ opts →
      (opts.foldl processOpt st).mainO.showVersion = st.mainO.showVersion := by
  intro opts
  induction opts with
  | nil =>
    intro st h
    rfl
  | cons o rest ih =>
    intro st h
    rw [List.foldl_cons, ih _ (fun hc => h (List.mem_cons_of_mem _ hc))]
    have hne : o ≠ CliOpt.oVersion := fun hee => h (hee ▸ List.mem_cons_self _ _)
    cases o <;> simp only [processOpt] <;> (try split_ifs) <;> simp_all

theorem foldl_keeps_detach :
    ∀ (opts : List CliOpt) (st : ParseState),
      st.client.detachRequestLatest = true →
      (opts.foldl processOpt st).client.detachRequestLatest = true := by
  intro opts
  induction opts with
  | nil =>
    intro st h
    exact h
  | cons o rest ih =>
    intro st h
    rw [List.foldl_cons]
    apply ih
    cases o <;> simp only [processOpt] <;> (try split_ifs) <;> simp [h]

theorem foldl_keeps_detachAll :
    ∀ (opts : List CliOpt) (st : ParseState),
      st.client.detachRequestAll = true →
      (opts.foldl processOpt st).client.detachRequestAll = true := by
  intro opts
  induction opts with
  | nil =>
    intro st h
    exact h
  | cons o rest ih =>
    intro st h
    rw [List.foldl_cons]
    apply ih
    cases o <;> simp only [processOpt] <;> (try split_ifs) <;> simp [h]

theorem parseArgs_detach :
    ∀ (opts : List CliOpt) (st : ParseState), CliOpt.oDetach ∈ opts →
      (opts.foldl processOpt st).client.detachRequestLatest = true := by
  intro opts
  induction opts with
  | nil =>
    intro st h
    simp at h
  | cons o rest ih =>
    intro st h
    rw [List.foldl_cons]
    rcases List.mem_cons.mp h with rfl | hmem
    · exact foldl_keeps_detach rest _ (by simp [processOpt])
    · exact ih _ hmem

theorem parseArgs_detachAll :
    ∀ (opts : List CliOpt) (st : ParseState), CliOpt.oDetachAll ∈ opts →
      (opts.foldl processOpt st).client.detachRequestAll = true := by
  intro opts
  induction opts with
  | nil =>
    intro st h
    simp at h
  | cons o rest ih =>
    intro st h
    rw [List.foldl_cons]
    rcases List.mem_cons.mp h with rfl | hmem
    · exact foldl_keeps_detachAll rest _ (by simp [processOpt])
    · exact ih _ hmem

/-- C8.  For every argument vector containing `-N` (no-daemon), the
parsed server options have `Background = false` and
`ExitOnLastSessionTerminate = false` (main.cpp:228-231): `-N` disables
backgrounding and also produces the keepalive behaviour of `-k`, and no
later option re-enables either flag. -/
theorem no_daemon_sets_keepalive (opts : List CliOpt)
    (h : CliOpt.oNoDaemon ∈ opts) :
    (parseArgs opts).server.background = false ∧
    (parseArgs opts).server.exitOnLastSessionTerminate = false :=
  parseArgs_no_daemon_aux opts {} h

theorem no_daemon_sets_keepalive_witness :
    (parseArgs [CliOpt.oSocket "/tmp/m", CliOpt.oNoDaemon, CliOpt.oVerbose]).server.background = false ∧
    (parseArgs [CliOpt.oSocket "/tmp/m", CliOpt.oNoDaemon, CliOpt.oVerbose]).server.exitOnLastSessionTerminate = false :=
  no_daemon_sets_keepalive [CliOpt.oSocket "/tmp/m", CliOpt.oNoDaemon, CliOpt.oVerbose]
    (by simp)

/-! ### C9: -d together with -D -/

/-- Refutation of C9 as stated: the argument vector
`[-d, -D, -h]` contains both `-d` and `-D`, yet `main` prints the help
text and exits with `Success` (0) before the mutual-exclusion check is
reached (main.cpp:245-249), reporting no error. -/
theorem detach_conflict_counterexample :
    CliOpt.oDetach ∈ [CliOpt.oDetach, CliOpt.oDetachAll, CliOpt.oHelp] ∧
    CliOpt.oDetachAll ∈ [CliOpt.oDetach, CliOpt.oDetachAll, CliOpt.oHelp] ∧
    mainParse [CliOpt.oDetach, CliOpt.oDetachAll, CliOpt.oHelp] =
      (.exited .success, false) := by
  decide

/-- C9 (amended: the argument vector must not also contain `-h` or `-V`,
whose handling returns `Success` before the mutual-exclusion check).  For
every argument vector containing both `-d` and `-D` and neither `-h` nor
`-V`, parsing reports an error to standard error and `main` exits with
the `InvocationError` exit code (1) without performing any client or
server action (the parse block returns before dispatch). -/
theorem detach_conflict_errors_without_help_or_version (opts : List CliOpt)
    (hd : CliOpt.oDetach ∈ opts) (hD : CliOpt.oDetachAll ∈ opts)
    (hh : CliOpt.oHelp ∉ opts) (hv : CliOpt.oVersion ∉ opts) :
    mainParse opts = (.exited .invocationError, true) ∧
    FrontendExitCode.toNat .invocationError = 1 := by
  refine ⟨?_, rfl⟩
  have h1 : (parseArgs opts).mainO.showHelp = false := foldl_showHelp opts {} hh
  have h2 : (parseArgs opts).mainO.showVersion = false := foldl_showVersion opts {} hv
  have h3 : (parseArgs opts).client.detachRequestLatest = true := parseArgs_detach opts {} hd
  have h4 : (parseArgs opts).client.detachRequestAll = true := parseArgs_detachAll opts {} hD
  rw [mainParse]
  dsimp only
  rw [h1, h2]
  simp only [Bool.false_eq_true, if_false]
  rw [if_pos (show (parseArgs opts).client.detachRequestLatest = true ∧
        (parseArgs opts).client.detachRequestAll = true from ⟨h3, h4⟩)]
  by_cases hs : (parseArgs opts).server.serverMode <;> simp [hs]


theorem detach_conflict_errors_witness :
    mainParse [CliOpt.oDetach, CliOpt.oDetachAll] = (.exited .invocationError, true) ∧
    FrontendExitCode.toNat .invocationError = 1 :=
  detach_conflict_errors_without_help_or_version [CliOpt.oDetach, CliOpt.oDetachAll]
    (by decide) (by decide) (by decide) (by decide)

end Monomux
